import Mathlib

/-!
Verification development for the generated-code execution engine
(pandas-ai: pandasai/pipelines/chat/code_execution.py) and the
HuggingFace text-generation client
(extensions/llms/huggingface/pandasai_huggingface/huggingface_text_gen.py).

Code text is modelled as a list of characters; the Python substring test
(the in operator on str) is modelled by containsSub below.
-/

abbrev Code := List Char

/-- Boolean test that s is an initial segment of t (Python str.startswith). -/
def startsWith : List Char → List Char → Bool
  | [], _ => true
  | _ :: _, [] => false
  | a :: s, b :: t => a == b && startsWith s t

/-- Boolean substring containment, the Python in operator on strings. -/
def containsSub (s : List Char) : List Char → Bool
  | [] => s.isEmpty
  | b :: t => startsWith s (b :: t) || containsSub s t

/-- Index of the first occurrence of s in t (Python str.index); only
meaningful when containsSub s t is true. -/
def firstOccIdx (s : List Char) : List Char → Nat
  | [] => 0
  | b :: t => if startsWith s (b :: t) then 0 else firstOccIdx s t + 1

/-- A table of the ordered table list: either already materialized in memory
(a pandas DataFrame) or a lazy connector handle whose in-memory projection
becomes available after an explicit execute() fetch.  The Nat payload stands
for the underlying dataframe. -/
inductive Table where
  | memDF (d : Nat)
  | lazyTab (d : Nat)
deriving DecidableEq

/-- The configuration fields of Config (schemas/df_config.py) that
CodeExecution reads. -/
structure Config where
  max_retries : Nat
  use_error_correction_framework : Bool
  direct_sql : Bool

/-- The literal need-all idiom "for df in dfs" tested in _required_dfs. -/
def needAllIdiom1 : Code := "for df in dfs".data

/-- The literal need-all idiom "pd.concat(dfs" tested in _required_dfs. -/
def needAllIdiom2 : Code := "pd.concat(dfs".data

/-- The literal positional reference dfs[i] searched for in _required_dfs. -/
def dfsRef (i : Nat) : Code := ("dfs[" ++ Nat.repr i ++ "]").data

/-- The enumerate loop of _required_dfs: slot i is the table when the code
text contains the literal substring dfs[i], else an absence marker. -/
def markRequired (code : Code) : Nat → List Table → List (Option Table)
  | _, [] => []
  | i, t :: rest =>
    (if containsSub (dfsRef i) code then some t else none) ::
      markRequired code (i + 1) rest

/-- CodeExecution._required_dfs.  Returns all tables when a need-all idiom
occurs; otherwise marks each positionally referenced table present.  The
final Python expression is required_dfs or self._dfs: a list is falsy
exactly when it is empty, which for the loop output means the table list
itself was empty. -/
def required_dfs (dfs : List Table) (code : Code) : List (Option Table) :=
  if containsSub needAllIdiom1 code || containsSub needAllIdiom2 code then
    dfs.map some
  else
    let req := markRequired code 0 dfs
    if req.isEmpty then dfs.map some else req

/-- A value living in the execution namespace. -/
inductive Value where
  | vNone
  | vDF (d : Nat)
  | vList (l : List Value)
  | vCallable (t : Table)
  | vRaw (n : Nat)

/-- CodeExecution._get_originals: absence markers pass through as None,
in-memory dataframes pass through unchanged, lazy connectors are fetched
(execute()) and replaced by their pandas_df projection. -/
def get_originals (slots : List (Option Table)) : List Value :=
  slots.map (fun s =>
    match s with
    | none => Value.vNone
    | some (Table.memDF d) => Value.vDF d
    | some (Table.lazyTab d) => Value.vDF d)

/-- Whether processing this slot in _get_originals invokes the connector
fetch df.execute(): only non-empty slots holding a lazy table do. -/
def fetchesConnector : Option Table → Bool
  | some (Table.lazyTab _) => true
  | _ => false

/-- Whether a table of the list is lazily backed. -/
def isLazyB : Table → Bool
  | Table.lazyTab _ => true
  | Table.memDF _ => false

/-- The connector-fetch footprint of one execute_code call: flag i is true
exactly when _get_originals invokes execute() on slot i of the slot list
produced by _required_dfs. -/
def fetchedFlags (dfs : List Table) (code : Code) : List Bool :=
  (required_dfs dfs code).map fetchesConnector

/-- Number of slots of the dependency analysis that hold a table. -/
def nonEmptySlotCount (dfs : List Table) (code : Code) : Nat :=
  ((required_dfs dfs code).filter Option.isSome).length

/-- Execution namespace: a name-to-value mapping with Python dict update
semantics (a later update shadows an earlier binding of the same name). -/
abbrev Env := List (String × Value)

/-- Python dict item assignment, observed through lookupEnv. -/
def setEnv (env : Env) (k : String) (v : Value) : Env := (k, v) :: env

/-- Python dict lookup. -/
def lookupEnv : Env → String → Option Value
  | [], _ => none
  | (k, v) :: rest, key => if k == key then some v else lookupEnv rest key

/-- Errors raised by the engine.  execErr stands for an arbitrary runtime
fault of the executed code (distinguished by its payload). -/
inductive Err where
  | execErr (n : Nat)
  | noResultFound
  | invalidLLMOutputType (msgs : List String)
  | invalidOutputValueMismatch
  | indexError
deriving DecidableEq

/-- The exposed table sequence of one execute_code call:
get_originals applied to the slots chosen by _required_dfs. -/
def originalsOf (dfs : List Table) (code : Code) : List Value :=
  get_originals (required_dfs dfs code)

/-- The namespace construction of execute_code (lines 152-156): start from
the additional-dependency environment, bind the ordered table sequence under
dfs, and bind the singular alias df to element 0 when that sequence has
length one. -/
def buildEnvCore (deps : Env) (originals : List Value) : Env :=
  let env1 := setEnv deps "dfs" (Value.vList originals)
  match originals with
  | [v] => setEnv env1 "df" v
  | _ => env1

/-- Continuation of the namespace construction: under direct_sql bind
execute_sql_query to the first table's direct-query capability (an
IndexError when the table list is empty). -/
def buildEnv (cfg : Config) (dfs : List Table) (deps : Env) (code : Code) :
    Except Err Env :=
  match cfg.direct_sql, dfs with
  | true, [] => Except.error Err.indexError
  | true, t :: _ =>
    Except.ok (setEnv (buildEnvCore deps (originalsOf dfs code))
      "execute_sql_query" (Value.vCallable t))
  | false, _ => Except.ok (buildEnvCore deps (originalsOf dfs code))

/-- CodeExecution.execute_code: build the namespace, run the code in it
(execB is the behaviour of the Python exec call: it transforms the
namespace or raises), then extract the binding named result, raising
NoResultFoundError when it is absent. -/
def execute_code (cfg : Config) (dfs : List Table) (deps : Env)
    (execB : Env → Except Err Env) (code : Code) : Except Err Value :=
  match buildEnv cfg dfs deps code with
  | Except.error e => Except.error e
  | Except.ok env0 =>
    match execB env0 with
    | Except.error e => Except.error e
    | Except.ok env1 =>
      match lookupEnv env1 "result" with
      | none => Except.error Err.noResultFound
      | some v => Except.ok v

/-- CodeExecution._retry_run_code: forward to the on_retry corrector when
one is configured (it may itself raise), otherwise re-raise the error. -/
def retry_run_code (onRetry : Option (Code → Err → Except Err Code))
    (code : Code) (e : Err) : Except Err Code :=
  match onRetry with
  | none => Except.error e
  | some corr => corr code e

/-- The while loop of CodeExecution.execute, entered at a given value of
retry_count.  run n c is the combined outcome of attempt n on code c
(execute_code followed by the two output validators, any failure collapsed
into its error).  The first component counts the invocations of run, the
second is the outcome visible to the caller.  The loop re-enters only after
incrementing retry_count, which the raise-at-cap branch keeps at most
max_retries, hence termination. -/
def executeFrom (cfg : Config) (run : Nat → Code → Except Err Value)
    (onRetry : Option (Code → Err → Except Err Code)) (code : Code)
    (retryCount : Nat) : Nat × Except Err Value :=
  match run retryCount code with
  | Except.ok v => (1, Except.ok v)
  | Except.error e =>
    if _h : cfg.use_error_correction_framework = false ∨
        cfg.max_retries ≤ retryCount then
      (1, Except.error e)
    else
      match retry_run_code onRetry code e with
      | Except.error e2 => (1, Except.error e2)
      | Except.ok code2 =>
        let next := executeFrom cfg run onRetry code2 (retryCount + 1)
        (next.1 + 1, next.2)
termination_by cfg.max_retries - retryCount
decreasing_by
  rw [not_or] at _h
  omega

/-- CodeExecution.execute: the retry loop started at retry_count = 0 on the
initial candidate. -/
def execute (cfg : Config) (run : Nat → Code → Except Err Value)
    (onRetry : Option (Code → Err → Except Err Code)) (code : Code) :
    Nat × Except Err Value :=
  executeFrom cfg run onRetry code 0

/-- One attempt of the try block of CodeExecution.execute: execute_code,
then the declared-output-type validator (skipped when the declared type is
absent, i.e. the empty string), then the envelope validator
validate_result.  validateTy and validateRes are the behaviours of the
external OutputValidator. -/
def attemptRun (cfg : Config) (dfs : List Table) (deps : Env)
    (execBs : Nat → Env → Except Err Env) (outputType : Option String)
    (validateTy : String → Value → Bool × List String)
    (validateRes : Value → Bool) : Nat → Code → Except Err Value :=
  fun n code =>
    match execute_code cfg dfs deps (execBs n) code with
    | Except.error e => Except.error e
    | Except.ok r =>
      match outputType with
      | some ty =>
        match validateTy ty r with
        | (true, _) =>
          if validateRes r then Except.ok r
          else Except.error Err.invalidOutputValueMismatch
        | (false, errs) => Except.error (Err.invalidLLMOutputType errs)
      | none =>
        if validateRes r then Except.ok r
        else Except.error Err.invalidOutputValueMismatch

/-- Constant payloads of Python ast.Constant nodes. -/
inductive AConst where
  | intC (n : Int)
  | strC (s : String)
  | noneC
  | boolC (b : Bool)
deriving DecidableEq

/-- The fragment of the Python abstract syntax that the provenance helpers
inspect: Name, Constant, Subscript (with its slice expression as in
Python 3.9+), Call and Attribute nodes. -/
inductive AExpr where
  | nameE (id : String)
  | constantE (v : AConst)
  | subscriptE (value : AExpr) (slice : AExpr)
  | callE (func : AExpr) (args : List AExpr)
  | attributeE (value : AExpr) (attr : String)

/-- Python attribute access node.value: Constant nodes expose their payload,
Subscript and Attribute nodes expose their base expression node, every
other node raises AttributeError (modelled as none). -/
def dotValue : AExpr → Option (AConst ⊕ AExpr)
  | AExpr.constantE c => some (Sum.inl c)
  | AExpr.subscriptE b _ => some (Sum.inr b)
  | AExpr.attributeE b _ => some (Sum.inr b)
  | _ => none

/-- Python attribute access node.id: only Name nodes have it. -/
def dotId : AExpr → Option String
  | AExpr.nameE s => some s
  | _ => none

/-- A token yielded by _tokenize_operand: an identifier or attribute name,
a constant payload, or (when a subscript slice is itself a Subscript or
Attribute node) the raw base node that slice.value exposes. -/
inductive Token where
  | strT (s : String)
  | constT (c : AConst)
  | exprT (e : AExpr)

/-- CodeExecution._tokenize_operand.  The generator is modelled as the
ordered list of yielded tokens; an AttributeError (a Call whose func is not
an Attribute node, or a subscript slice without a value attribute) is
modelled as none.  A node matching none of the four isinstance tests
yields nothing. -/
def tokenize_operand : AExpr → Option (List Token)
  | AExpr.callE f _ =>
    match f with
    | AExpr.attributeE _ a => some [Token.strT a]
    | _ => none
  | AExpr.subscriptE b sl =>
    match dotValue sl with
    | none => none
    | some sv =>
      match tokenize_operand b with
      | none => none
      | some ts =>
        some (ts ++ [match sv with
          | Sum.inl c => Token.constT c
          | Sum.inr e => Token.exprT e])
  | AExpr.nameE s => some [Token.strT s]
  | AExpr.constantE c => some [Token.constT c]
  | AExpr.attributeE _ _ => some []

/-- Python str() on a constant payload, as interpolated by the f-string
building the dfs label. -/
def constStr : AConst → String
  | AConst.intC n => if n < 0 then "-" ++ Nat.repr n.natAbs else Nat.repr n.natAbs
  | AConst.strC s => s
  | AConst.noneC => "None"
  | AConst.boolC b => if b then "True" else "False"

/-- A Python ast.Assign node restricted to the fields the resolver reads.
The parser always produces at least one target. -/
structure Assign where
  lineno : Nat
  targets : List AExpr
  value : AExpr

/-- The try block body of _get_df_id_by_nearest_assignment for one
assignment node: some label when the node qualifies and updates
nearest_assignment, none when an AttributeError is swallowed or a
condition fails.  objRepr renders the node object that slice.value exposes
when the slice is not a constant (Python would interpolate the object's
repr). -/
def assignLabel (objRepr : AExpr → String) (target_name : String)
    (a : Assign) : Option String :=
  match dotValue a.value with
  | none => none
  | some base =>
    match (match base with | Sum.inr e => dotId e | Sum.inl _ => none) with
    | none => none
    | some bid =>
      match a.targets.head? with
      | none => none
      | some t0 =>
        match dotId t0 with
        | none => none
        | some tid =>
          match a.value with
          | AExpr.subscriptE _ sl =>
            if bid == "dfs" && tid == target_name then
              match dotValue sl with
              | some (Sum.inl c) => some ("dfs[" ++ constStr c ++ "]")
              | some (Sum.inr e) => some ("dfs[" ++ objRepr e ++ "]")
              | none => none
            else none
          | _ => none

/-- Stable insertion placing a after every node with a strictly smaller
line number and before nodes with an equal or larger one. -/
def insertByLineno (a : Assign) : List Assign → List Assign
  | [] => [a]
  | b :: rest =>
    if b.lineno < a.lineno then b :: insertByLineno a rest
    else a :: b :: rest

/-- Python sorted(assignments, key=lineno): a stable ascending sort. -/
def sortByLineno : List Assign → List Assign
  | [] => []
  | a :: rest => insertByLineno a (sortByLineno rest)

/-- The for loop of _get_df_id_by_nearest_assignment over the sorted list:
the first node past current_lineno returns the nearest label recorded so
far; otherwise the node may update it.  The source function has no return
statement after the loop, so completing the loop falls through and yields
Python's implicit None. -/
def nearestGo (objRepr : AExpr → String) (current_lineno : Nat)
    (target_name : String) : Option String → List Assign → Option String
  | _, [] => none
  | nearest, a :: rest =>
    if current_lineno < a.lineno then nearest
    else
      nearestGo objRepr current_lineno target_name
        (match assignLabel objRepr target_name a with
         | some l => some l
         | none => nearest) rest

/-- CodeExecution._get_df_id_by_nearest_assignment. -/
def get_df_id_by_nearest_assignment (objRepr : AExpr → String)
    (current_lineno : Nat) (assignments : List Assign)
    (target_name : String) : Option String :=
  nearestGo objRepr current_lineno target_name none (sortByLineno assignments)

/-- One step of the stop-sequence loop of HuggingFaceTextGen.call: when the
sequence occurs in the text, cut the text just before its first
occurrence. -/
def truncAtFirst (s t : List Char) : List Char :=
  if containsSub s t then t.take (firstOccIdx s t) else t

/-- The stop-sequence loop of HuggingFaceTextGen.call: sequences applied in
list order, each truncating at its first occurrence. -/
def applyStops (stops : List (List Char)) (t : List Char) : List Char :=
  stops.foldl (fun acc sq => truncAtFirst sq acc) t

/-- The non-streaming tail of HuggingFaceTextGen.call: the generated text,
post-processed by the stop-sequence loop when the configured list is
non-empty. -/
def hfCallGeneratedText (stops : List (List Char)) (generated : List Char) :
    List Char :=
  if stops.isEmpty then generated else applyStops stops generated

/-! Concrete sample inputs used by witnesses and counterexamples. -/

/-- A configuration with correction enabled and three retries. -/
def cfgPlain : Config :=
  { max_retries := 3, use_error_correction_framework := true, direct_sql := false }

/-- A configuration with the error-correction framework disabled. -/
def cfgNoCorrection : Config :=
  { max_retries := 0, use_error_correction_framework := false, direct_sql := false }

/-- An attempt behaviour that always raises runtime fault 7. -/
def runFail7 : Nat → Code → Except Err Value :=
  fun _ _ => Except.error (Err.execErr 7)

/-- Code that only uses the singular alias. -/
def codeResultDf : Code := "result = df".data

/-- Code that references no table at all. -/
def codeResultOne : Code := "result = 1".data

/-- Code containing the combine-all idiom. -/
def codeConcatAll : Code := "result = pd.concat(dfs)".data

/-- Code referencing only the first table positionally. -/
def codeUseFirst : Code := "result = dfs[0]".data

/-- A single lazily-backed table. -/
def dfsOneLazy : List Table := [Table.lazyTab 0]

/-- Two lazily-backed tables. -/
def dfsTwoLazy : List Table := [Table.lazyTab 1, Table.lazyTab 2]

/-- One materialized and one lazily-backed table. -/
def dfsMixed : List Table := [Table.memDF 1, Table.lazyTab 2]

/-- The namespace built for dfsOneLazy and codeResultOne over no extra
dependencies. -/
def env0W : Env := [("df", Value.vNone), ("dfs", Value.vList [Value.vNone])]

/-- An exec behaviour that binds result to the raw value 1. -/
def execBW : Env → Except Err Env :=
  fun env => Except.ok (setEnv env "result" (Value.vRaw 1))

/-- The namespace after running execBW on env0W. -/
def env1W : Env := setEnv env0W "result" (Value.vRaw 1)

/-- Extra dependencies that already bind the name df. -/
def depsW : Env := [("df", Value.vRaw 9)]

/-- The namespace built for dfsOneLazy and codeResultOne over depsW. -/
def envW7 : Env :=
  [("df", Value.vNone), ("dfs", Value.vList [Value.vNone]), ("df", Value.vRaw 9)]

/-- The assignment x = dfs[2] on line 1. -/
def assignX : Assign :=
  { lineno := 1, targets := [AExpr.nameE "x"],
    value := AExpr.subscriptE (AExpr.nameE "dfs") (AExpr.constantE (AConst.intC 2)) }

/-- The assignment y = dfs[3] on line 7. -/
def assignY : Assign :=
  { lineno := 7, targets := [AExpr.nameE "y"],
    value := AExpr.subscriptE (AExpr.nameE "dfs") (AExpr.constantE (AConst.intC 3)) }

/-- A fixed rendering for non-constant slice nodes (unused on the sample
inputs, whose slices are constants). -/
def objRepr0 : AExpr → String := fun _ => ""

/-- The expression foo[2][1][0] from the _tokenize_operand docstring. -/
def fooExample : AExpr :=
  AExpr.subscriptE
    (AExpr.subscriptE
      (AExpr.subscriptE (AExpr.nameE "foo") (AExpr.constantE (AConst.intC 2)))
      (AExpr.constantE (AConst.intC 1)))
    (AExpr.constantE (AConst.intC 0))

/-- A sample stop sequence. -/
def stopSeqW : List Char := "stop".data

/-! Helper lemmas. -/

/-- An element of the marked slot list whose index was not referenced in the
code is an absence marker, hence never triggers a connector fetch. -/
theorem markRequired_not_fetched (code : Code) :
    ∀ (dfs : List Table) (s i : Nat),
      containsSub (dfsRef (s + i)) code = false →
      ((markRequired code s dfs).map fetchesConnector).getD i false = false := by
  intro dfs
  induction dfs with
  | nil => intro s i _; simp [markRequired, List.getD]
  | cons t rest ih =>
    intro s i h
    cases i with
    | zero =>
      rw [Nat.add_zero] at h
      simp [markRequired, h, fetchesConnector]
    | succ j =>
      have hs : s + (j + 1) = (s + 1) + j := by omega
      rw [hs] at h
      simpa [markRequired] using ih (s + 1) j h

/-- Mapping the fetch test over an all-present slot list computes the
laziness flags of the tables. -/
theorem map_fetch_some (dfs : List Table) :
    (dfs.map some).map fetchesConnector = dfs.map isLazyB := by
  induction dfs with
  | nil => rfl
  | cons t rest ih => cases t <;> simp [fetchesConnector, isLazyB, ih]


/-! Claims about the Dependency Analyzer and the connector-fetch footprint. -/

/-- Claim C4: for every code text containing neither need-all idiom and
every index i whose literal reference dfs[i] does not occur in the code,
the connector-fetch step for table i is never invoked during
execute_code. -/
theorem unreferenced_table_not_fetched (dfs : List Table) (code : Code)
    (i : Nat)
    (h1 : containsSub needAllIdiom1 code = false)
    (h2 : containsSub needAllIdiom2 code = false)
    (h3 : containsSub (dfsRef i) code = false) :
    (fetchedFlags dfs code).getD i false = false := by
  unfold fetchedFlags required_dfs
  rw [h1, h2]
  simp only [Bool.or_self, Bool.false_eq_true, if_false]
  cases dfs with
  | nil => simp [markRequired, List.getD]
  | cons t rest =>
    have hne : (markRequired code 0 (t :: rest)).isEmpty = false := by
      simp [markRequired]
    simp only [hne, Bool.false_eq_true, if_false]
    exact markRequired_not_fetched code (t :: rest) 0 i
      (by rw [Nat.zero_add]; exact h3)

/-- Witness for unreferenced_table_not_fetched: two lazy tables, code
referencing only dfs[0]; table 1 is not fetched. -/
theorem unreferenced_table_not_fetched_witness :
    containsSub needAllIdiom1 codeUseFirst = false ∧
    containsSub needAllIdiom2 codeUseFirst = false ∧
    containsSub (dfsRef 1) codeUseFirst = false ∧
    (fetchedFlags dfsTwoLazy codeUseFirst).getD 1 false = false :=
  ⟨rfl, rfl, rfl,
    unreferenced_table_not_fetched dfsTwoLazy codeUseFirst 1 rfl rfl rfl⟩

/-- Claim C5: when the code text contains an iterate-over-all-tables idiom
or a combine-all idiom, the Dependency Analyzer returns all tables
unconditionally, and the fetch footprint covers exactly the lazily-backed
tables: every lazy table in the list is fetched. -/
theorem need_all_idiom_fetches_all (dfs : List Table) (code : Code)
    (h : (containsSub needAllIdiom1 code || containsSub needAllIdiom2 code) = true) :
    required_dfs dfs code = dfs.map some ∧
    fetchedFlags dfs code = dfs.map isLazyB := by
  have hreq : required_dfs dfs code = dfs.map some := by
    unfold required_dfs
    rw [h]
    simp
  exact ⟨hreq, by unfold fetchedFlags; rw [hreq]; exact map_fetch_some dfs⟩

/-- Witness for need_all_idiom_fetches_all: the combine-all idiom over one
materialized and one lazy table; both slots are present and the lazy one is
fetched. -/
theorem need_all_idiom_fetches_all_witness :
    (containsSub needAllIdiom1 codeConcatAll ||
      containsSub needAllIdiom2 codeConcatAll) = true ∧
    (required_dfs dfsMixed codeConcatAll = dfsMixed.map some ∧
      fetchedFlags dfsMixed codeConcatAll = dfsMixed.map isLazyB) :=
  ⟨rfl, need_all_idiom_fetches_all dfsMixed codeConcatAll rfl⟩

/-- Claim C3 (code evaluation): on a one-table list and code that uses only
the singular alias (no idiom, no positional reference), _required_dfs
returns the all-absent slot list, not the full unfiltered table list: the
fallback required_dfs or self._dfs never fires on a non-empty table list
because a non-empty list of None is truthy.  The sandbox sequence built
from it is a single empty placeholder. -/
theorem required_dfs_fallback_dead :
    required_dfs dfsOneLazy codeResultDf = [none] ∧
    get_originals (required_dfs dfsOneLazy codeResultDf) = [Value.vNone] :=
  ⟨rfl, rfl⟩


/-! Claims about the Provenance Resolver. -/

/-- Claim C9: _tokenize_operand yields tokens in base-expression-first,
index-last order: a call on an attribute yields the invoked attribute name,
a subscript with a literal index yields the tokens of its base followed by
that constant, a bare name yields its identifier, a literal yields its
value, and foo[2][1][0] tokenizes to foo, 2, 1, 0. -/
theorem tokenize_operand_spec :
    (∀ (b : AExpr) (a : String) (args : List AExpr),
      tokenize_operand (AExpr.callE (AExpr.attributeE b a) args) =
        some [Token.strT a]) ∧
    (∀ (b : AExpr) (c : AConst),
      tokenize_operand (AExpr.subscriptE b (AExpr.constantE c)) =
        (tokenize_operand b).map (fun ts => ts ++ [Token.constT c])) ∧
    (∀ s : String, tokenize_operand (AExpr.nameE s) = some [Token.strT s]) ∧
    (∀ c : AConst, tokenize_operand (AExpr.constantE c) = some [Token.constT c]) ∧
    tokenize_operand fooExample =
      some [Token.strT "foo", Token.constT (AConst.intC 2),
        Token.constT (AConst.intC 1), Token.constT (AConst.intC 0)] := by
  refine ⟨fun b a args => rfl, fun b c => ?_, fun s => rfl, fun c => rfl, rfl⟩
  cases h : tokenize_operand b <;> simp [tokenize_operand, dotValue, h]

/-- Claim C8 (code evaluation): _get_df_id_by_nearest_assignment on the
assignment x = dfs[2] at line 1.  A use of x at line 5 yields None (the
function body ends without a return statement, so completing the loop falls
through to Python's implicit None and drops the recorded label), a use at
line 0 yields None as the claim expects, and the recorded label dfs[2] is
only surfaced when some assignment lies strictly past the queried line. -/
theorem nearest_assignment_eval :
    get_df_id_by_nearest_assignment objRepr0 5 [assignX] "x" = none ∧
    get_df_id_by_nearest_assignment objRepr0 0 [assignX] "x" = none ∧
    get_df_id_by_nearest_assignment objRepr0 5 [assignX, assignY] "x" =
      some "dfs[2]" :=
  ⟨rfl, rfl, rfl⟩


/-! Claims about the Retry Controller. -/

/-- The attempt count of the loop resumed at retry_count rc is bounded by
the remaining budget: attempts + rc stays at or under max_retries + 1
whenever rc is within the budget. -/
theorem executeFrom_le (cfg : Config) (run : Nat → Code → Except Err Value)
    (onRetry : Option (Code → Err → Except Err Code)) :
    ∀ (n : Nat) (code : Code) (rc : Nat), rc ≤ cfg.max_retries →
      cfg.max_retries - rc = n →
      (executeFrom cfg run onRetry code rc).1 + rc ≤ cfg.max_retries + 1 := by
  intro n
  induction n with
  | zero =>
    intro code rc hle hn
    rw [executeFrom]
    split
    · show 1 + rc ≤ cfg.max_retries + 1
      omega
    · split
      · show 1 + rc ≤ cfg.max_retries + 1
        omega
      · rename_i hnot
        rw [not_or] at hnot
        exact absurd (Nat.lt_of_not_le hnot.2) (by omega)
  | succ m ih =>
    intro code rc hle hn
    rw [executeFrom]
    split
    · show 1 + rc ≤ cfg.max_retries + 1
      omega
    · split
      · show 1 + rc ≤ cfg.max_retries + 1
        omega
      · rename_i hnot
        rw [not_or] at hnot
        have hlt : rc < cfg.max_retries := Nat.lt_of_not_le hnot.2
        split
        · show 1 + rc ≤ cfg.max_retries + 1
          omega
        · rename_i code2 heq
          show (executeFrom cfg run onRetry code2 (rc + 1)).1 + 1 + rc ≤
            cfg.max_retries + 1
          have := ih code2 (rc + 1) (by omega) (by omega)
          omega

/-- Claim C1: for every configuration and every behaviour of the executed
code and of the corrector, one call to the execute loop makes at most
max_retries + 1 attempts (invocations of run, one per execute_code call). -/
theorem execute_attempts_le (cfg : Config)
    (run : Nat → Code → Except Err Value)
    (onRetry : Option (Code → Err → Except Err Code)) (code : Code) :
    (execute cfg run onRetry code).1 ≤ cfg.max_retries + 1 := by
  have h := executeFrom_le cfg run onRetry (cfg.max_retries) code 0
    (Nat.zero_le _) (Nat.sub_zero _)
  unfold execute
  omega

/-- Claim C2: a failing attempt with correction disabled or the attempt
count at max_retries makes no further attempt and re-raises the original
error unchanged: the loop resumed at that attempt returns exactly that
error, never a substitute result. -/
theorem retry_exhausted_reraises (cfg : Config)
    (run : Nat → Code → Except Err Value)
    (onRetry : Option (Code → Err → Except Err Code)) (code : Code)
    (rc : Nat) (e : Err)
    (hfail : run rc code = Except.error e)
    (hstop : cfg.use_error_correction_framework = false ∨
      cfg.max_retries ≤ rc) :
    executeFrom cfg run onRetry code rc = (1, Except.error e) := by
  rw [executeFrom, hfail]
  exact dif_pos hstop

/-- Witness for retry_exhausted_reraises: correction disabled, the code
raises fault 7 on the first attempt, and the loop re-raises exactly that
fault after one attempt. -/
theorem retry_exhausted_reraises_witness :
    runFail7 0 codeResultOne = Except.error (Err.execErr 7) ∧
    (cfgNoCorrection.use_error_correction_framework = false ∨
      cfgNoCorrection.max_retries ≤ 0) ∧
    executeFrom cfgNoCorrection runFail7 none codeResultOne 0 =
      (1, Except.error (Err.execErr 7)) :=
  ⟨rfl, Or.inl rfl,
    retry_exhausted_reraises cfgNoCorrection runFail7 none codeResultOne 0
      (Err.execErr 7) rfl (Or.inl rfl)⟩


/-! Claims about the Executor and the Sandbox Builder. -/

/-- Looking a key up after setting it yields the new value. -/
theorem lookupEnv_set_same (env : Env) (k : String) (v : Value) :
    lookupEnv (setEnv env k v) k = some v := by
  simp [setEnv, lookupEnv]

/-- Setting one key leaves lookups of a different key unchanged. -/
theorem lookupEnv_set_ne (env : Env) (k key : String) (v : Value)
    (h : (k == key) = false) :
    lookupEnv (setEnv env k v) key = lookupEnv env key := by
  simp [setEnv, lookupEnv, h]

/-- Claim C6: execute_code returns exactly the binding named result left in
the namespace by the executed code, and fails with NoResultFound when no
such binding exists. -/
theorem execute_code_result_binding (cfg : Config) (dfs : List Table)
    (deps : Env) (execB : Env → Except Err Env) (code : Code)
    (env0 env1 : Env)
    (hb : buildEnv cfg dfs deps code = Except.ok env0)
    (hx : execB env0 = Except.ok env1) :
    execute_code cfg dfs deps execB code =
      (match lookupEnv env1 "result" with
       | none => Except.error Err.noResultFound
       | some v => Except.ok v) := by
  simp only [execute_code, hb, hx]

/-- Witness for execute_code_result_binding: the exec behaviour binds
result to the raw value 1 and execute_code returns exactly it. -/
theorem execute_code_result_binding_witness :
    buildEnv cfgPlain dfsOneLazy [] codeResultOne = Except.ok env0W ∧
    execBW env0W = Except.ok env1W ∧
    execute_code cfgPlain dfsOneLazy [] execBW codeResultOne =
      Except.ok (Value.vRaw 1) := by
  refine ⟨rfl, rfl, ?_⟩
  exact (execute_code_result_binding cfgPlain dfsOneLazy [] execBW
    codeResultOne env0W env1W rfl rfl).trans rfl


/-- Lookups in the core namespace: dfs is always the exposed sequence, and
df is bound exactly when the sequence has one element, to that element. -/
theorem lookup_buildEnvCore (deps : Env) (o : List Value) :
    lookupEnv (buildEnvCore deps o) "dfs" = some (Value.vList o) ∧
    lookupEnv (buildEnvCore deps o) "df" =
      (if o.length = 1 then o.head? else lookupEnv deps "df") := by
  match o with
  | [] =>
    refine ⟨lookupEnv_set_same _ _ _, ?_⟩
    rw [if_neg (by simp)]
    exact lookupEnv_set_ne deps "dfs" "df" (Value.vList []) rfl
  | [v] =>
    refine ⟨?_, ?_⟩
    · show lookupEnv
        (setEnv (setEnv deps "dfs" (Value.vList [v])) "df" v) "dfs" = _
      rw [lookupEnv_set_ne (setEnv deps "dfs" (Value.vList [v])) "df" "dfs" v rfl]
      exact lookupEnv_set_same _ _ _
    · have h1 : ([v] : List Value).length = 1 := rfl
      rw [if_pos h1]
      exact lookupEnv_set_same _ _ _
  | v :: w :: r =>
    refine ⟨lookupEnv_set_same _ _ _, ?_⟩
    rw [if_neg (by simp)]
    exact lookupEnv_set_ne deps "dfs" "df" (Value.vList (v :: w :: r)) rfl

/-- Claim C7 counterexample: one table, unreferenced code, so zero slots
are non-empty; the claim then says no singular alias is bound, yet the
built namespace binds df (to the empty placeholder). -/
theorem df_alias_counterexample :
    nonEmptySlotCount dfsOneLazy codeResultOne = 0 ∧
    buildEnv cfgPlain dfsOneLazy [] codeResultOne = Except.ok env0W ∧
    lookupEnv env0W "df" = some Value.vNone :=
  ⟨rfl, rfl, rfl⟩

/-- Claim C7 (amended): the singular alias df is bound exactly when the
exposed table sequence has length one (the condition the code tests is the
sequence length, not the number of non-empty slots), and it is then bound
to the same value as the sole sequence element, which may be the empty
placeholder; otherwise df keeps whatever binding the extra dependencies
gave it. -/
theorem df_alias_iff_len_one (cfg : Config) (dfs : List Table) (deps : Env)
    (code : Code) (env : Env)
    (henv : buildEnv cfg dfs deps code = Except.ok env) :
    lookupEnv env "dfs" = some (Value.vList (originalsOf dfs code)) ∧
    lookupEnv env "df" =
      (if (originalsOf dfs code).length = 1 then (originalsOf dfs code).head?
       else lookupEnv deps "df") := by
  unfold buildEnv at henv
  cases hds : cfg.direct_sql with
  | false =>
    rw [hds] at henv
    cases dfs with
    | nil =>
      cases henv
      exact lookup_buildEnvCore deps (originalsOf [] code)
    | cons t rest =>
      cases henv
      exact lookup_buildEnvCore deps (originalsOf (t :: rest) code)
  | true =>
    rw [hds] at henv
    cases dfs with
    | nil => cases henv
    | cons t rest =>
      cases henv
      refine ⟨?_, ?_⟩
      · rw [lookupEnv_set_ne (buildEnvCore deps (originalsOf (t :: rest) code))
          "execute_sql_query" "dfs" (Value.vCallable t) rfl]
        exact (lookup_buildEnvCore deps (originalsOf (t :: rest) code)).1
      · rw [lookupEnv_set_ne (buildEnvCore deps (originalsOf (t :: rest) code))
          "execute_sql_query" "df" (Value.vCallable t) rfl]
        exact (lookup_buildEnvCore deps (originalsOf (t :: rest) code)).2

/-- Witness for df_alias_iff_len_one: one table, extra dependencies already
binding df; the sequence has length one so df is rebound to the sole
(placeholder) element. -/
theorem df_alias_iff_len_one_witness :
    buildEnv cfgPlain dfsOneLazy depsW codeResultOne = Except.ok envW7 ∧
    (lookupEnv envW7 "dfs" =
        some (Value.vList (originalsOf dfsOneLazy codeResultOne)) ∧
      lookupEnv envW7 "df" =
        (if (originalsOf dfsOneLazy codeResultOne).length = 1
         then (originalsOf dfsOneLazy codeResultOne).head?
         else lookupEnv depsW "df")) :=
  ⟨rfl, df_alias_iff_len_one cfgPlain dfsOneLazy depsW codeResultOne envW7 rfl⟩


/-! Claims about HuggingFaceTextGen.call stop-sequence handling. -/

/-- A match of s inside a truncation of u is a match inside u. -/
theorem startsWith_take (s : List Char) :
    ∀ (u : List Char) (k : Nat),
      startsWith s (u.take k) = true → startsWith s u = true := by
  induction s with
  | nil => intro u k _; rfl
  | cons a s ih =>
    intro u k h
    cases u with
    | nil => rw [List.take_nil] at h; exact absurd h (by simp [startsWith])
    | cons b u =>
      cases k with
      | zero => rw [List.take_zero] at h; exact absurd h (by simp [startsWith])
      | succ k =>
        rw [List.take_succ_cons] at h
        rw [startsWith] at h ⊢
        simp only [Bool.and_eq_true] at h ⊢
        exact ⟨h.1, ih u k h.2⟩

/-- An occurrence of s in a truncation of t is an occurrence in t. -/
theorem containsSub_take (s : List Char) :
    ∀ (t : List Char) (k : Nat),
      containsSub s (t.take k) = true → containsSub s t = true := by
  intro t
  induction t with
  | nil => intro k h; rwa [List.take_nil] at h
  | cons b t ih =>
    intro k h
    cases k with
    | zero =>
      rw [List.take_zero] at h
      rw [containsSub] at h
      cases s with
      | nil => rfl
      | cons a s => exact absurd h (by simp [List.isEmpty])
    | succ k =>
      rw [List.take_succ_cons] at h
      rw [containsSub] at h ⊢
      simp only [Bool.or_eq_true] at h ⊢
      rcases h with h1 | h2
      · exact Or.inl (startsWith_take s (b :: t) (k + 1)
          (by rw [List.take_succ_cons]; exact h1))
      · exact Or.inr (ih k h2)

/-- A non-empty pattern never occurs strictly before its first
occurrence. -/
theorem firstOcc_no_occurrence (s : List Char) (hne : s ≠ []) :
    ∀ t : List Char, containsSub s (t.take (firstOccIdx s t)) = false := by
  have hemp : s.isEmpty = false := by
    cases s with
    | nil => exact absurd rfl hne
    | cons a s => rfl
  intro t
  induction t with
  | nil => rw [List.take_nil]; exact hemp
  | cons b t ih =>
    by_cases h : startsWith s (b :: t) = true
    · rw [firstOccIdx, if_pos h, List.take_zero]
      exact hemp
    · rw [firstOccIdx, if_neg h, List.take_succ_cons]
      have hl : startsWith s (b :: t.take (firstOccIdx s t)) = false := by
        cases hsw : startsWith s (b :: t.take (firstOccIdx s t)) with
        | false => rfl
        | true =>
          exact absurd (startsWith_take s (b :: t) (firstOccIdx s t + 1)
            (by rw [List.take_succ_cons]; exact hsw)) h
      rw [containsSub, hl, ih]
      rfl

/-- After truncating at a non-empty stop sequence, that sequence no longer
occurs in the text. -/
theorem trunc_no_occurrence (s t : List Char) (hne : s ≠ []) :
    containsSub s (truncAtFirst s t) = false := by
  unfold truncAtFirst
  by_cases h : containsSub s t = true
  · rw [if_pos h]
    exact firstOcc_no_occurrence s hne t
  · rw [if_neg h]
    exact Bool.eq_false_iff.mpr h

/-- Truncating at any stop sequence never introduces an occurrence of a
pattern that was already absent. -/
theorem trunc_no_new (sq s t : List Char)
    (h : containsSub s t = false) :
    containsSub s (truncAtFirst sq t) = false := by
  unfold truncAtFirst
  by_cases hc : containsSub sq t = true
  · rw [if_pos hc]
    cases hx : containsSub s (t.take (firstOccIdx sq t)) with
    | false => rfl
    | true => exact absurd (containsSub_take s t _ hx) (by rw [h]; simp)
  · rw [if_neg hc]
    exact h

/-- The whole stop-sequence loop never introduces an occurrence of a
pattern that was already absent. -/
theorem applyStops_no_new (stops : List (List Char)) :
    ∀ (t s : List Char), containsSub s t = false →
      containsSub s (applyStops stops t) = false := by
  induction stops with
  | nil => intro t s h; exact h
  | cons sq rest ih =>
    intro t s h
    have hstep : applyStops (sq :: rest) t = applyStops rest (truncAtFirst sq t) :=
      rfl
    rw [hstep]
    exact ih (truncAtFirst sq t) s (trunc_no_new sq s t h)

/-- After the loop, no non-empty member of the stop list occurs in the
processed text. -/
theorem applyStops_removes (stops : List (List Char)) :
    ∀ (t s : List Char), s ∈ stops → s ≠ [] →
      containsSub s (applyStops stops t) = false := by
  induction stops with
  | nil => intro t s hmem _; cases hmem
  | cons sq rest ih =>
    intro t s hmem hne
    have hstep : applyStops (sq :: rest) t = applyStops rest (truncAtFirst sq t) :=
      rfl
    rw [hstep]
    rcases List.mem_cons.mp hmem with rfl | hmem2
    · exact applyStops_no_new rest (truncAtFirst s t) s
        (trunc_no_occurrence s t hne)
    · exact ih (truncAtFirst sq t) s hmem2 hne

/-- Claim C10 counterexample: with the stop list holding the empty
sequence, the returned text (the empty text) still contains that configured
stop sequence, so the unrestricted claim fails. -/
theorem stop_sequences_counterexample :
    ([] : List Char) ∈ [([] : List Char)] ∧
    hfCallGeneratedText [[]] ("x".data) = [] ∧
    containsSub [] (hfCallGeneratedText [[]] ("x".data)) = true :=
  ⟨List.Mem.head _, rfl, rfl⟩

/-- Claim C10 (amended): for a non-empty stop list, the non-streaming call
returns text containing no occurrence of any non-empty configured stop
sequence; sequences act in list order, each truncating at its first
occurrence anywhere in the text.  (The empty sequence trivially occurs in
every text, including the empty text it truncates to.) -/
theorem stop_sequences_removed (stops : List (List Char)) (gen : List Char)
    (s : List Char) (hmem : s ∈ stops) (hne : s ≠ []) :
    containsSub s (hfCallGeneratedText stops gen) = false := by
  have hstops : stops.isEmpty = false := by
    cases stops with
    | nil => cases hmem
    | cons a r => rfl
  unfold hfCallGeneratedText
  rw [hstops]
  simp only [Bool.false_eq_true, if_false]
  exact applyStops_removes stops gen s hmem hne

/-- Witness for stop_sequences_removed on a concrete generation. -/
theorem stop_sequences_removed_witness :
    stopSeqW ∈ [stopSeqW] ∧ stopSeqW ≠ [] ∧
    containsSub stopSeqW (hfCallGeneratedText [stopSeqW] ("say stop now".data)) =
      false :=
  ⟨List.Mem.head _, by decide,
    stop_sequences_removed [stopSeqW] ("say stop now".data) stopSeqW
      (List.Mem.head _) (by decide)⟩

